import Mathlib

/-!
Verification of the Throwdown canvas core: a shallow embedding of the
canvas state & mutation engine (`src/lib/stores/canvas.svelte.ts` and the
history-bearing store variant), the lock-graph traversal, and the geometric
edge-snap detection (`src/lib/utils/geometry.ts`), together with proofs of
the specified history, locking and snapping properties.

Numbers (coordinates, dimensions, zoom) are modelled as rationals: the
source manipulates them with exact-looking arithmetic (add, subtract,
divide, compare) and none of the verified properties depends on binary
floating-point rounding.

Deep cloning via a serialize round-trip (`JSON.parse(JSON.stringify(v))`)
is the identity on the immutable values of this embedding, and the
serialized-string comparison in `endTransaction` is structural equality of
the snapshot values: the snapshots are plain trees built by the store
itself, so two of them serialize identically exactly when they are
structurally equal.
-/

set_option maxHeartbeats 1000000
set_option maxRecDepth 10000

namespace Throwdown

/-- Sides of a node: `type Side = 'top' | 'right' | 'bottom' | 'left'`. -/
inductive Side
  | top
  | right
  | bottom
  | left
deriving DecidableEq, Repr

/-- Arrow-end markers: `type EndType = 'none' | 'arrow'`. -/
inductive EndType
  | noEnd
  | arrow
deriving DecidableEq, Repr

/-- A node color: palette index 1 to 6 or a raw color string
(`type NodeColor = 1 | 2 | 3 | 4 | 5 | 6 | string`). -/
inductive NodeColor
  | preset (n : Nat)
  | raw (s : String)
deriving DecidableEq, Repr

/-- Variant payload of a canvas node: the discriminated-union fields of
`TextNode` (markdown body), `LinkNode` (url), `GroupNode` (label,
background, backgroundStyle as its literal string) and `FileNode`
(filename, mimeType, size). -/
inductive NodePayload
  | text (body : String)
  | link (url : String)
  | group (label : Option String) (background : Option String)
      (backgroundStyle : Option String)
  | file (filename : String) (mimeType : String) (size : ℚ)
deriving DecidableEq, Repr

/-- A canvas node: the common `CanvasNodeBase` fields plus the variant
payload. -/
structure CanvasNode where
  id : String
  x : ℚ
  y : ℚ
  width : ℚ
  height : ℚ
  color : Option NodeColor := none
  payload : NodePayload
deriving DecidableEq, Repr

/-- A directed edge between two nodes (`interface CanvasEdge`). -/
structure CanvasEdge where
  id : String
  fromNode : String
  toNode : String
  fromSide : Option Side := none
  toSide : Option Side := none
  fromEnd : Option EndType := none
  toEnd : Option EndType := none
  color : Option NodeColor := none
  label : Option String := none
deriving DecidableEq, Repr

/-- An undirected rigid lock between two node sides (`interface NodeLock`). -/
structure NodeLock where
  id : String
  nodeA : String
  sideA : Side
  nodeB : String
  sideB : Side
deriving DecidableEq, Repr

/-- Pan offset and zoom (`interface Viewport`). -/
structure Viewport where
  x : ℚ
  y : ℚ
  zoom : ℚ
deriving DecidableEq, Repr

/-- Canvas metadata (`interface CanvasMetadata`): ISO-8601 timestamps kept
as opaque strings. -/
structure CanvasMetadata where
  name : String
  created : String
  modified : String
deriving DecidableEq, Repr

/-- A complete canvas document (`interface CanvasFile`): nodes, edges and
the optional `x-` extension fields. -/
structure CanvasFile where
  nodes : List CanvasNode
  edges : List CanvasEdge
  xViewport : Option Viewport := none
  xMetadata : Option CanvasMetadata := none
  xLocks : Option (List NodeLock) := none
deriving DecidableEq, Repr

/-- A `{ nodes, edges }` deep copy kept on the history stacks
(`interface CanvasSnapshot`). -/
structure CanvasSnapshot where
  nodes : List CanvasNode
  edges : List CanvasEdge
deriving DecidableEq, Repr

/-- The per-document history (`interface CanvasHistory`). -/
structure CanvasHistory where
  undoStack : List CanvasSnapshot
  redoStack : List CanvasSnapshot
deriving DecidableEq, Repr

/-- The slice of the singleton `CanvasStore` state that the active document
sees: `canvas` is `this.canvases[this.activeCanvasId]` (`none` when the
active id resolves to no canvas), `selection` and `inTransaction` are the
fields of the same name, and `history` is `this.history[canvasId]` for the
active id.  The source initializes a document's history entry lazily; a
missing entry behaves in every reader (`pushSnapshot`, `undo`, `redo`,
`endTransaction`, `canUndo`, `canRedo`) exactly like `{undoStack: [],
redoStack: []}`, so the embedding represents the absent entry by the empty
history. -/
structure StoreState where
  canvas : Option CanvasFile
  selection : List String
  history : CanvasHistory
  inTransaction : Bool
deriving DecidableEq, Repr

namespace CanvasStore

/-- `private readonly HISTORY_LIMIT = 30`. -/
def HISTORY_LIMIT : Nat := 30

/-- The `{ nodes, edges }` snapshot of a canvas, as deep-cloned by
`pushSnapshot`, `undo` and `redo`. -/
def snapOf (c : CanvasFile) : CanvasSnapshot :=
  { nodes := c.nodes, edges := c.edges }

/-- The `get nodes()` getter: `this.activeCanvas?.nodes ?? []`. -/
def nodesOf (s : StoreState) : List CanvasNode :=
  match s.canvas with
  | some c => c.nodes
  | none => []

/-- The `get edges()` getter: `this.activeCanvas?.edges ?? []`. -/
def edgesOf (s : StoreState) : List CanvasEdge :=
  match s.canvas with
  | some c => c.edges
  | none => []

/-- Push one snapshot onto an undo stack and enforce the history limit:
`undoStack.push(snapshot); if (undoStack.length > HISTORY_LIMIT)
undoStack.shift()`. -/
def trimPush (l : List CanvasSnapshot) (x : CanvasSnapshot) : List CanvasSnapshot :=
  let pushed := l ++ [x]
  if HISTORY_LIMIT < pushed.length then pushed.tail else pushed

/-- `CanvasStore.pushSnapshot`: before a mutation, deep-copy `{nodes, edges}`
onto the active document's undo stack (skipped inside a transaction),
enforce the 30-entry limit and clear the redo stack. -/
def pushSnapshot (s : StoreState) : StoreState :=
  match s.canvas with
  | none => s
  | some c =>
    if s.inTransaction then s
    else
      { s with history := { undoStack := trimPush s.history.undoStack (snapOf c),
                            redoStack := [] } }

/-- `CanvasStore.beginTransaction`: push the one snapshot of the transaction,
then raise the flag so later mutations coalesce. -/
def beginTransaction (s : StoreState) : StoreState :=
  if s.inTransaction then s
  else { pushSnapshot s with inTransaction := true }

/-- `CanvasStore.endTransaction`: drop the flag; if the current `{nodes,
edges}` serializes identically to the snapshot captured at transaction
start (the top of the undo stack), discard that snapshot as a no-op. -/
def endTransaction (s : StoreState) : StoreState :=
  let s1 := { s with inTransaction := false }
  match s.canvas with
  | none => s1
  | some c =>
    match s.history.undoStack.getLast? with
    | none => s1
    | some lastSnap =>
      if snapOf c = lastSnap then
        { s1 with history := { undoStack := s.history.undoStack.dropLast,
                               redoStack := s.history.redoStack } }
      else s1

/-- `CanvasStore.undo`: push the current state on the redo stack, pop the
latest undo snapshot, restore `nodes`/`edges` from it, and prune the
selection to ids still present. -/
def undo (s : StoreState) : StoreState :=
  match s.canvas with
  | none => s
  | some c =>
    match s.history.undoStack.getLast? with
    | none => s
    | some prev =>
      let nodeIds := prev.nodes.map (fun n => n.id)
      { s with
        canvas := some { c with nodes := prev.nodes, edges := prev.edges },
        history := { undoStack := s.history.undoStack.dropLast,
                     redoStack := s.history.redoStack ++ [snapOf c] },
        selection := s.selection.filter (fun i => decide (i ∈ nodeIds)) }

/-- `CanvasStore.redo`: the mirror of `undo` (note: this push onto the undo
stack does not enforce the limit). -/
def redo (s : StoreState) : StoreState :=
  match s.canvas with
  | none => s
  | some c =>
    match s.history.redoStack.getLast? with
    | none => s
    | some next =>
      let nodeIds := next.nodes.map (fun n => n.id)
      { s with
        canvas := some { c with nodes := next.nodes, edges := next.edges },
        history := { undoStack := s.history.undoStack ++ [snapOf c],
                     redoStack := s.history.redoStack.dropLast },
        selection := s.selection.filter (fun i => decide (i ∈ nodeIds)) }

/-- One node-field update object as the store's callers build them: the
optional fields that any call site of `updateNode` passes (`{x, y}` from
`moveNode`, `{width, height}` from `resizeNode`, `{color}` from
`setSelectedNodesColor`); `color := some none` models passing the literal
`undefined` to clear the color. -/
structure NodeUpdate where
  x : Option ℚ := none
  y : Option ℚ := none
  width : Option ℚ := none
  height : Option ℚ := none
  color : Option (Option NodeColor) := none
deriving DecidableEq, Repr

/-- The object-spread merge `{ ...node, ...updates }`. -/
def applyNodeUpdate (u : NodeUpdate) (n : CanvasNode) : CanvasNode :=
  { n with
    x := u.x.getD n.x,
    y := u.y.getD n.y,
    width := u.width.getD n.width,
    height := u.height.getD n.height,
    color := u.color.getD n.color }

/-- `nodes.findIndex(n => n.id === id)` followed by
`nodes[index] = {...nodes[index], ...updates}`: replace the first node
carrying the id. -/
def updateNodeList (id : String) (u : NodeUpdate) :
    List CanvasNode → List CanvasNode
  | [] => []
  | n :: rest =>
    if n.id = id then applyNodeUpdate u n :: rest
    else n :: updateNodeList id u rest

/-- `nodes.findIndex(n => n.id === id) !== -1`. -/
def containsNode (id : String) (ns : List CanvasNode) : Bool :=
  ns.any (fun n => decide (n.id = id))

/-- `CanvasStore.updateNode`: no-op without an active canvas or when no node
carries the id; otherwise snapshot, then merge the updates into the node. -/
def updateNode (id : String) (u : NodeUpdate) (s : StoreState) : StoreState :=
  match s.canvas with
  | none => s
  | some c =>
    if containsNode id c.nodes then
      let s1 := pushSnapshot s
      { s1 with canvas := some { c with nodes := updateNodeList id u c.nodes } }
    else s

/-- `CanvasStore.moveNode`: `updateNode(id, { x, y })`. -/
def moveNode (id : String) (x y : ℚ) (s : StoreState) : StoreState :=
  updateNode id { x := some x, y := some y } s

/-- `CanvasStore.resizeNode`: `updateNode(id, { width, height })` -- the
store applies the requested dimensions as given, with no clamping. -/
def resizeNode (id : String) (width height : ℚ) (s : StoreState) : StoreState :=
  updateNode id { width := some width, height := some height } s

/-- `CanvasStore.addNode`: snapshot, then append the node. -/
def addNode (n : CanvasNode) (s : StoreState) : StoreState :=
  match s.canvas with
  | none => s
  | some c =>
    let s1 := pushSnapshot s
    { s1 with canvas := some { c with nodes := c.nodes ++ [n] } }

/-- `CanvasStore.deleteNode` (history-bearing store variant): snapshot, then
remove the node, every edge referencing it, and its selection entry.
(The OPFS file cleanup is external I/O outside this model.) -/
def deleteNode (id : String) (s : StoreState) : StoreState :=
  match s.canvas with
  | none => s
  | some c =>
    let s1 := pushSnapshot s
    { s1 with
      canvas := some { c with
        nodes := c.nodes.filter (fun n => decide (n.id ≠ id)),
        edges := c.edges.filter (fun e =>
          decide (e.fromNode ≠ id) && decide (e.toNode ≠ id)) },
      selection := s1.selection.filter (fun x => decide (x ≠ id)) }

/-- `createEdge(fromNode, toNode)` with the generated id passed explicitly:
the id generator is an external collaborator producing opaque strings, so
its output is an input of the embedding. -/
def createEdge (eid fromNode toNode : String) : CanvasEdge :=
  { id := eid, fromNode := fromNode, toNode := toNode, toEnd := some .arrow }

/-- `CanvasStore.addEdge`: snapshot, then append the new edge. -/
def addEdge (eid fromNode toNode : String) (s : StoreState) : StoreState :=
  match s.canvas with
  | none => s
  | some c =>
    let s1 := pushSnapshot s
    { s1 with canvas := some { c with edges := c.edges ++ [createEdge eid fromNode toNode] } }

/-- `CanvasStore.deleteEdge`: snapshot, then filter the edge out by id. -/
def deleteEdge (id : String) (s : StoreState) : StoreState :=
  match s.canvas with
  | none => s
  | some c =>
    let s1 := pushSnapshot s
    { s1 with canvas := some { c with edges := c.edges.filter (fun e => decide (e.id ≠ id)) } }

/-- One edge-field update object (the optional fields `updateEdge`'s callers
assign via `Object.assign`). -/
structure EdgeUpdate where
  fromNode : Option String := none
  toNode : Option String := none
  fromSide : Option (Option Side) := none
  toSide : Option (Option Side) := none
  fromEnd : Option (Option EndType) := none
  toEnd : Option (Option EndType) := none
  color : Option (Option NodeColor) := none
  label : Option (Option String) := none
deriving DecidableEq, Repr

/-- `Object.assign(edge, updates)`. -/
def applyEdgeUpdate (u : EdgeUpdate) (e : CanvasEdge) : CanvasEdge :=
  { e with
    fromNode := u.fromNode.getD e.fromNode,
    toNode := u.toNode.getD e.toNode,
    fromSide := u.fromSide.getD e.fromSide,
    toSide := u.toSide.getD e.toSide,
    fromEnd := u.fromEnd.getD e.fromEnd,
    toEnd := u.toEnd.getD e.toEnd,
    color := u.color.getD e.color,
    label := u.label.getD e.label }

/-- `edges.find(e => e.id === id)` mutated in place: replace the first edge
carrying the id. -/
def updateEdgeList (id : String) (u : EdgeUpdate) :
    List CanvasEdge → List CanvasEdge
  | [] => []
  | e :: rest =>
    if e.id = id then applyEdgeUpdate u e :: rest
    else e :: updateEdgeList id u rest

/-- `edges.find(e => e.id === id) !== undefined`. -/
def containsEdge (id : String) (es : List CanvasEdge) : Bool :=
  es.any (fun e => decide (e.id = id))

/-- `CanvasStore.updateEdge`: no-op without an active canvas or when no edge
carries the id; otherwise snapshot, then assign the updates. -/
def updateEdge (id : String) (u : EdgeUpdate) (s : StoreState) : StoreState :=
  match s.canvas with
  | none => s
  | some c =>
    if containsEdge id c.edges then
      let s1 := pushSnapshot s
      { s1 with canvas := some { c with edges := updateEdgeList id u c.edges } }
    else s

/-- One structural mutation of the history protocol (claim C1's inventory:
add/update/delete node, add/delete/update edge), with the id-generator
output of `addEdge` passed explicitly. -/
inductive Mut
  | addNode (n : CanvasNode)
  | updateNode (id : String) (u : NodeUpdate)
  | moveNode (id : String) (x y : ℚ)
  | resizeNode (id : String) (w h : ℚ)
  | deleteNode (id : String)
  | addEdge (eid fromNode toNode : String)
  | deleteEdge (id : String)
  | updateEdge (id : String) (u : EdgeUpdate)
deriving DecidableEq, Repr

/-- Run one mutation against the store. -/
def applyMut (m : Mut) (s : StoreState) : StoreState :=
  match m with
  | .addNode n => addNode n s
  | .updateNode id u => updateNode id u s
  | .moveNode id x y => moveNode id x y s
  | .resizeNode id w h => resizeNode id w h s
  | .deleteNode id => deleteNode id s
  | .addEdge eid f t => addEdge eid f t s
  | .deleteEdge id => deleteEdge id s
  | .updateEdge id u => updateEdge id u s

/-- Run a sequence of mutations left to right. -/
def applyMuts (M : List Mut) (s : StoreState) : StoreState :=
  M.foldl (fun t m => applyMut m t) s

/-- Whether running `m` against `s` pushes an undo snapshot: it does unless
there is no active canvas, a transaction is open, or the mutation is one of
the update family targeting an id that is not present (those return before
snapshotting). -/
def mutPushes (s : StoreState) (m : Mut) : Bool :=
  s.canvas.isSome && !s.inTransaction &&
  (match m, s.canvas with
   | .updateNode id _, some c => containsNode id c.nodes
   | .moveNode id _ _, some c => containsNode id c.nodes
   | .resizeNode id _ _, some c => containsNode id c.nodes
   | .updateEdge id _, some c => containsEdge id c.edges
   | _, _ => true)

/-- Every mutation of the sequence pushes a snapshot when its turn comes. -/
def mutsPush : StoreState → List Mut → Bool
  | _, [] => true
  | s, m :: M => mutPushes s m && mutsPush (applyMut m s) M

/-- The snapshots the sequence pushes, in push order: the `{nodes, edges}`
of the state just before each mutation. -/
def snapsOf : StoreState → List Mut → List CanvasSnapshot
  | _, [] => []
  | s, m :: M =>
    (match s.canvas with
     | some c => snapOf c
     | none => { nodes := [], edges := [] }) :: snapsOf (applyMut m s) M

/-- `undo` applied `n` times. -/
def undoN : Nat → StoreState → StoreState
  | 0, s => s
  | n + 1, s => undoN n (undo s)

/-- Keep at most the last `HISTORY_LIMIT` entries: the closed form of
repeatedly pushing and shifting. -/
def dropCap (l : List CanvasSnapshot) : List CanvasSnapshot :=
  l.drop (l.length - HISTORY_LIMIT)

theorem snapsOf_length (M : List Mut) : ∀ s, (snapsOf s M).length = M.length := by
  induction M with
  | nil => intro s; simp [snapsOf]
  | cons m M ih => intro s; simp [snapsOf, ih]

theorem dropCap_eq_self {l : List CanvasSnapshot} (h : l.length ≤ HISTORY_LIMIT) :
    dropCap l = l := by
  simp [dropCap, Nat.sub_eq_zero_of_le h]

theorem dropCap_length_le (l : List CanvasSnapshot) :
    (dropCap l).length ≤ HISTORY_LIMIT := by
  simp [dropCap]
  omega

theorem trimPush_eq_dropCap {l : List CanvasSnapshot} (x : CanvasSnapshot)
    (h : l.length ≤ HISTORY_LIMIT) : trimPush l x = dropCap (l ++ [x]) := by
  unfold trimPush dropCap
  simp only [List.length_append, List.length_cons, List.length_nil]
  rcases Nat.lt_or_ge l.length HISTORY_LIMIT with hlt | hge
  · have h1 : ¬ (HISTORY_LIMIT < l.length + 1) := by omega
    have h2 : l.length + 1 - HISTORY_LIMIT = 0 := by omega
    simp [h1, h2]
  · have hlen : l.length = HISTORY_LIMIT := le_antisymm h hge
    have h1 : HISTORY_LIMIT < l.length + 1 := by omega
    have h2 : l.length + 1 - HISTORY_LIMIT = 1 := by omega
    simp only [h1, if_pos, h2]
    cases l with
    | nil => simp [HISTORY_LIMIT] at hlen
    | cons a t => simp

theorem dropCap_dropCap_append (L T : List CanvasSnapshot) :
    dropCap (dropCap L ++ T) = dropCap (L ++ T) := by
  rcases Nat.le_or_le L.length HISTORY_LIMIT with h | h
  · rw [dropCap_eq_self h]
  · unfold dropCap
    have hlenL : (L.drop (L.length - HISTORY_LIMIT)).length = HISTORY_LIMIT := by
      simp only [List.length_drop]
      omega
    simp only [List.length_append, hlenL, List.drop_append_eq_append_drop,
      List.drop_drop]
    congr 1
    · congr 1
      omega
    · congr 1
      omega

theorem applyMut_spec (m : Mut) (s : StoreState) (c : CanvasFile)
    (hc : s.canvas = some c) (hp : mutPushes s m = true) :
    (∃ c', (applyMut m s).canvas = some c') ∧
    (applyMut m s).inTransaction = s.inTransaction ∧
    (applyMut m s).history.undoStack = trimPush s.history.undoStack (snapOf c) ∧
    (applyMut m s).history.redoStack = [] := by
  cases m with
  | addNode n =>
    simp [mutPushes, hc] at hp
    simp [applyMut, addNode, pushSnapshot, hc, hp]
  | updateNode id u =>
    simp [mutPushes, hc] at hp
    simp [applyMut, updateNode, pushSnapshot, hc, hp.1, hp.2]
  | moveNode id x y =>
    simp [mutPushes, hc] at hp
    simp [applyMut, moveNode, updateNode, pushSnapshot, hc, hp.1, hp.2]
  | resizeNode id w h =>
    simp [mutPushes, hc] at hp
    simp [applyMut, resizeNode, updateNode, pushSnapshot, hc, hp.1, hp.2]
  | deleteNode id =>
    simp [mutPushes, hc] at hp
    simp [applyMut, deleteNode, pushSnapshot, hc, hp]
  | addEdge eid f t =>
    simp [mutPushes, hc] at hp
    simp [applyMut, addEdge, pushSnapshot, hc, hp]
  | deleteEdge id =>
    simp [mutPushes, hc] at hp
    simp [applyMut, deleteEdge, pushSnapshot, hc, hp]
  | updateEdge id u =>
    simp [mutPushes, hc] at hp
    simp [applyMut, updateEdge, pushSnapshot, hc, hp.1, hp.2]

theorem applyMuts_spec (M : List Mut) : ∀ (s : StoreState) (c : CanvasFile),
    s.canvas = some c → s.inTransaction = false → mutsPush s M = true →
    s.history.undoStack.length ≤ HISTORY_LIMIT →
    (∃ c', (applyMuts M s).canvas = some c') ∧
    (applyMuts M s).inTransaction = false ∧
    (applyMuts M s).history.undoStack = dropCap (s.history.undoStack ++ snapsOf s M) := by
  induction M with
  | nil =>
    intro s c hc ht _ hlen
    simp [applyMuts, snapsOf, hc, ht, dropCap_eq_self hlen]
  | cons m M ih =>
    intro s c hc ht hp hlen
    simp only [mutsPush, Bool.and_eq_true] at hp
    obtain ⟨hp1, hp2⟩ := hp
    obtain ⟨⟨c', hc'⟩, hTr, hU, _⟩ := applyMut_spec m s c hc hp1
    have hlen' : (applyMut m s).history.undoStack.length ≤ HISTORY_LIMIT := by
      rw [hU, trimPush_eq_dropCap _ hlen]
      exact dropCap_length_le _
    have hTr' : (applyMut m s).inTransaction = false := hTr.trans ht
    obtain ⟨hex, hTr2, hU2⟩ := ih (applyMut m s) c' hc' hTr' hp2 hlen'
    have hstep : applyMuts (m :: M) s = applyMuts M (applyMut m s) := rfl
    refine ⟨by rw [hstep]; exact hex, by rw [hstep]; exact hTr2, ?_⟩
    rw [hstep, hU2, hU, trimPush_eq_dropCap _ hlen, dropCap_dropCap_append]
    have hs : snapsOf s (m :: M) = snapOf c :: snapsOf (applyMut m s) M := by
      simp [snapsOf, hc]
    rw [hs, List.append_assoc, List.singleton_append]

theorem undoN_spec : ∀ (k : Nat) (t : StoreState) (c : CanvasFile)
    (A l : List CanvasSnapshot), t.canvas = some c →
    t.history.undoStack = A ++ l → l.length = k →
    nodesOf (undoN k t) = (l.headD (snapOf c)).nodes ∧
    edgesOf (undoN k t) = (l.headD (snapOf c)).edges := by
  intro k
  induction k with
  | zero =>
    intro t c A l hc _ hlen
    have hl : l = [] := List.length_eq_zero.mp hlen
    subst hl
    simp [undoN, nodesOf, edgesOf, hc, snapOf]
  | succ k ih =>
    intro t c A l hc hstack hlen
    rcases List.eq_nil_or_concat l with hnil | ⟨L, z, hLz⟩
    · subst hnil; simp at hlen
    · rw [List.concat_eq_append] at hLz
      subst hLz
      have hget : t.history.undoStack.getLast? = some z := by
        rw [hstack, ← List.append_assoc]
        exact List.getLast?_concat _
      have hundo : undo t =
          { t with
            canvas := some { c with nodes := z.nodes, edges := z.edges },
            history := { undoStack := A ++ L,
                         redoStack := t.history.redoStack ++ [snapOf c] },
            selection := t.selection.filter
              (fun i => decide (i ∈ z.nodes.map (fun n => n.id))) } := by
        unfold undo
        rw [hc, hget]
        simp [hstack, ← List.append_assoc, List.dropLast_concat]
      have hLlen : L.length = k := by
        simp at hlen
        omega
      have := ih (undo t) { c with nodes := z.nodes, edges := z.edges } A L
        (by rw [hundo]) (by rw [hundo]) hLlen
      have hz : snapOf { c with nodes := z.nodes, edges := z.edges } = z := rfl
      rw [hz] at this
      have hhead : (L ++ [z]).headD (snapOf c) = L.headD z := by
        cases L <;> simp
      rw [show undoN (k + 1) t = undoN k (undo t) from rfl, hhead]
      exact this

/-- C1 (amended): for every document state with an active canvas, no open
transaction, and an undo stack within the 30-entry limit, and every finite
sequence `M` of structural mutations each of which pushes a snapshot, with
`|M| ≤ 30` (the history cap), calling `undo` `|M|` times after `M` restores
exactly the node and edge collections that held before `M` (node ids are
values here, hence stable). -/
theorem undo_restores (s : StoreState) (c : CanvasFile) (M : List Mut)
    (hc : s.canvas = some c) (ht : s.inTransaction = false)
    (hp : mutsPush s M = true)
    (hlen : s.history.undoStack.length ≤ HISTORY_LIMIT)
    (hM : M.length ≤ HISTORY_LIMIT) :
    nodesOf (undoN M.length (applyMuts M s)) = c.nodes ∧
    edgesOf (undoN M.length (applyMuts M s)) = c.edges := by
  obtain ⟨⟨c', hc'⟩, _, hU⟩ := applyMuts_spec M s c hc ht hp hlen
  have hsnaps : (snapsOf s M).length = M.length := snapsOf_length M s
  cases M with
  | nil => simp [applyMuts, undoN, nodesOf, edgesOf, hc]
  | cons m M' =>
    have hd : (s.history.undoStack ++ snapsOf s (m :: M')).length - HISTORY_LIMIT ≤
        s.history.undoStack.length := by
      rw [List.length_append, hsnaps]
      omega
    have hsplit : dropCap (s.history.undoStack ++ snapsOf s (m :: M')) =
        s.history.undoStack.drop
          ((s.history.undoStack ++ snapsOf s (m :: M')).length - HISTORY_LIMIT) ++
          snapsOf s (m :: M') := by
      unfold dropCap
      exact List.drop_append_of_le_length hd
    have hmain := undoN_spec (m :: M').length (applyMuts (m :: M') s) c' _ _ hc'
      (by rw [hU, hsplit]) hsnaps
    have hT : snapsOf s (m :: M') = snapOf c :: snapsOf (applyMut m s) M' := by
      simp [snapsOf, hc]
    rw [hT] at hmain
    simpa using hmain

/-- A concrete text node used by the concrete history scenarios. -/
def sampleNode : CanvasNode :=
  { id := "a", x := 0, y := 0, width := 200, height := 100, payload := .text "" }

/-- A concrete one-node document. -/
def sampleCanvas : CanvasFile := { nodes := [sampleNode], edges := [] }

/-- A concrete store state: active one-node document, empty selection and
history, no transaction open. -/
def sampleState : StoreState :=
  { canvas := some sampleCanvas, selection := [],
    history := { undoStack := [], redoStack := [] }, inTransaction := false }

/-- C1, counterexample to the unamended claim: 31 mutations (each moving
node `a` to position (1,1)) followed by 31 `undo`s do not restore the node
collection that held before the sequence -- the history cap evicts the
oldest snapshot, so the node stays at x = 1 instead of returning to x = 0. -/
theorem undo_restores_cap_cex :
    nodesOf (undoN 31 (applyMuts (List.replicate 31 (Mut.moveNode "a" 1 1)) sampleState)) ≠
      nodesOf sampleState := by
  decide

/-- C1, witness: the amended restoration law at a concrete state and a
concrete three-mutation sequence. -/
theorem undo_restores_witness :
    nodesOf (undoN (List.replicate 3 (Mut.moveNode "a" 1 1)).length
        (applyMuts (List.replicate 3 (Mut.moveNode "a" 1 1)) sampleState)) =
      sampleCanvas.nodes ∧
    edgesOf (undoN (List.replicate 3 (Mut.moveNode "a" 1 1)).length
        (applyMuts (List.replicate 3 (Mut.moveNode "a" 1 1)) sampleState)) =
      sampleCanvas.edges :=
  undo_restores sampleState sampleCanvas (List.replicate 3 (Mut.moveNode "a" 1 1))
    rfl rfl (by decide) (by decide) (by decide)

/-- C4 (confirmed): starting from an empty history with an active canvas
and no open transaction, 35 independent (non-transactional,
snapshot-pushing) mutations leave exactly 30 undo entries, namely the
pushed snapshots with the 5 oldest evicted in FIFO order; moreover any
snapshot-pushing mutation leaves at most 30 entries when the stack was
within the cap, and empties the redo stack. -/
theorem history_cap (s : StoreState) (c : CanvasFile) (M : List Mut)
    (hc : s.canvas = some c) (ht : s.inTransaction = false)
    (hu : s.history.undoStack = []) (hp : mutsPush s M = true)
    (hM : M.length = 35) :
    (applyMuts M s).history.undoStack = (snapsOf s M).drop 5 ∧
    (applyMuts M s).history.undoStack.length = 30 ∧
    (∀ (t : StoreState) (m : Mut), mutPushes t m = true →
      (applyMut m t).history.redoStack = [] ∧
      (t.history.undoStack.length ≤ HISTORY_LIMIT →
        (applyMut m t).history.undoStack.length ≤ HISTORY_LIMIT)) := by
  obtain ⟨_, _, hU⟩ := applyMuts_spec M s c hc ht hp (by rw [hu]; simp)
  have hdrop : (applyMuts M s).history.undoStack = (snapsOf s M).drop 5 := by
    rw [hU, hu, List.nil_append]
    unfold dropCap
    rw [snapsOf_length, hM]
    norm_num [HISTORY_LIMIT]
  refine ⟨hdrop, ?_, ?_⟩
  · rw [hdrop, List.length_drop, snapsOf_length, hM]
  · intro t m hpm
    have hsome : t.canvas.isSome = true := by
      unfold mutPushes at hpm
      cases htc : t.canvas with
      | none => rw [htc] at hpm; simp at hpm
      | some c2 => simp
    obtain ⟨c2, htc⟩ := Option.isSome_iff_exists.mp hsome
    obtain ⟨_, _, hU2, hR2⟩ := applyMut_spec m t c2 htc hpm
    refine ⟨hR2, fun hle => ?_⟩
    rw [hU2, trimPush_eq_dropCap _ hle]
    exact dropCap_length_le _

/-- C4, witness: 35 concrete mutations against the one-node document leave
30 undo entries, the first 5 pushed snapshots evicted. -/
theorem history_cap_witness :
    (applyMuts (List.replicate 35 (Mut.moveNode "a" 1 1)) sampleState).history.undoStack =
      (snapsOf sampleState (List.replicate 35 (Mut.moveNode "a" 1 1))).drop 5 ∧
    (applyMuts (List.replicate 35 (Mut.moveNode "a" 1 1)) sampleState).history.undoStack.length = 30 ∧
    (∀ (t : StoreState) (m : Mut), mutPushes t m = true →
      (applyMut m t).history.redoStack = [] ∧
      (t.history.undoStack.length ≤ HISTORY_LIMIT →
        (applyMut m t).history.undoStack.length ≤ HISTORY_LIMIT)) :=
  history_cap sampleState sampleCanvas (List.replicate 35 (Mut.moveNode "a" 1 1))
    rfl rfl rfl (by decide) (by decide)

theorem updateNodeList_of_not_contains (nid : String) (u : NodeUpdate) :
    ∀ ns : List CanvasNode, containsNode nid ns = false →
    updateNodeList nid u ns = ns := by
  intro ns
  induction ns with
  | nil => intro _; rfl
  | cons n rest ih =>
    intro h
    simp only [containsNode, List.any_cons, Bool.or_eq_false_iff] at h
    obtain ⟨h1, h2⟩ := h
    have h1' : ¬ (n.id = nid) := by simpa using h1
    simp only [updateNodeList, h1', if_neg, ite_false]
    rw [ih h2]

theorem containsNode_updateNodeList (nid : String) (u : NodeUpdate) :
    ∀ ns : List CanvasNode,
    containsNode nid (updateNodeList nid u ns) = containsNode nid ns := by
  intro ns
  induction ns with
  | nil => rfl
  | cons n rest ih =>
    by_cases h : n.id = nid
    · simp [updateNodeList, h, containsNode, applyNodeUpdate]
    · simp only [updateNodeList, h, if_neg, ite_false, containsNode, List.any_cons]
      unfold containsNode at ih
      rw [ih]

theorem updateNodeList_restore (nid : String) (x0 y0 a b : ℚ) :
    ∀ ns : List CanvasNode, (∀ m ∈ ns, m.id = nid → m.x = x0 ∧ m.y = y0) →
    updateNodeList nid { x := some x0, y := some y0 }
      (updateNodeList nid { x := some a, y := some b } ns) = ns := by
  intro ns
  induction ns with
  | nil => intro _; rfl
  | cons n rest ih =>
    intro h
    by_cases hid : n.id = nid
    · obtain ⟨hx, hy⟩ := h n (List.mem_cons_self _ _) hid
      simp only [updateNodeList, hid, if_pos, applyNodeUpdate, Option.getD_some,
        Option.getD_none]
      cases n
      simp_all
    · simp only [updateNodeList, hid, if_neg, ite_false]
      rw [ih (fun m hm => h m (List.mem_cons_of_mem _ hm))]

/-- `moveNode` while a transaction is open: no snapshot is pushed, only the
targeted node's coordinates change. -/
theorem moveNode_inTransaction (cv : Option CanvasFile) (sel : List String)
    (hist : CanvasHistory) (c : CanvasFile) (nid : String) (a b : ℚ)
    (hc : cv = some c) :
    moveNode nid a b { canvas := cv, selection := sel, history := hist,
                       inTransaction := true } =
      { canvas := some { c with
          nodes := updateNodeList nid { x := some a, y := some b } c.nodes },
        selection := sel, history := hist, inTransaction := true } := by
  subst hc
  simp only [moveNode, updateNode]
  by_cases hf : containsNode nid c.nodes
  · simp [hf, pushSnapshot]
  · simp only [Bool.not_eq_true] at hf
    simp only [hf, Bool.false_eq_true, if_neg, ite_false]
    rw [updateNodeList_of_not_contains nid _ c.nodes hf]

/-- `endTransaction` when the top undo snapshot equals the current state:
the no-op snapshot is discarded. -/
theorem endTransaction_pop (t : StoreState) (c : CanvasFile)
    (hc : t.canvas = some c)
    (hl : t.history.undoStack.getLast? = some (snapOf c)) :
    (endTransaction t).history.undoStack = t.history.undoStack.dropLast := by
  simp [endTransaction, hc, hl]

/-- C2 (amended): with fewer than 30 undo entries, a transaction wrapping a
move of node `nid` away by some delta and back to its original coordinates
(netting to zero structural change) leaves the undo stack exactly as it
was: the snapshot captured at transaction start is discarded on close as a
serialized no-op.  (At the 30-entry cap the unamended claim fails: the
eviction at transaction start permanently drops the oldest entry.) -/
theorem transaction_net_zero (s : StoreState) (c : CanvasFile) (nid : String)
    (x0 y0 dx dy : ℚ) (hc : s.canvas = some c) (ht : s.inTransaction = false)
    (hlen : s.history.undoStack.length < HISTORY_LIMIT)
    (hn : ∀ m ∈ c.nodes, m.id = nid → m.x = x0 ∧ m.y = y0) :
    (endTransaction (moveNode nid x0 y0 (moveNode nid (x0 + dx) (y0 + dy)
      (beginTransaction s)))).history.undoStack = s.history.undoStack := by
  have hno : ¬ (HISTORY_LIMIT < s.history.undoStack.length + 1) := by omega
  have hs1 : beginTransaction s =
      { canvas := some c, selection := s.selection,
        history := { undoStack := s.history.undoStack ++ [snapOf c],
                     redoStack := [] },
        inTransaction := true } := by
    simp [beginTransaction, pushSnapshot, hc, ht, trimPush, hno]
  rw [hs1]
  rw [moveNode_inTransaction (some c) s.selection _ c nid (x0 + dx) (y0 + dy) rfl]
  rw [moveNode_inTransaction _ s.selection _
    { c with nodes := updateNodeList nid { x := some (x0 + dx), y := some (y0 + dy) } c.nodes }
    nid x0 y0 rfl]
  rw [updateNodeList_restore nid x0 y0 (x0 + dx) (y0 + dy) c.nodes hn]
  rw [endTransaction_pop _ c rfl (by simp [List.getLast?_concat])]
  simp [List.dropLast_concat]

/-- A concrete state whose undo stack is at the 30-entry cap. -/
def fullStackState : StoreState :=
  { canvas := some sampleCanvas, selection := [],
    history := { undoStack := List.replicate 30 { nodes := [], edges := [] },
                 redoStack := [] },
    inTransaction := false }

/-- C2, counterexample to the unamended claim: with the undo stack at the
30-entry cap, the net-zero transaction `beginTransaction(); moveNode(a, 5,
5); moveNode(a, 0, 0); endTransaction();` does not leave the undo stack
identical -- the snapshot pushed at transaction start evicts the oldest
entry, and discarding the no-op snapshot on close does not bring it back
(29 entries remain instead of 30). -/
theorem transaction_net_zero_cap_cex :
    (endTransaction (moveNode "a" 0 0 (moveNode "a" 5 5
      (beginTransaction fullStackState)))).history.undoStack ≠
      fullStackState.history.undoStack := by
  decide

/-- C2, witness: the amended no-op-transaction law at a concrete state with
an empty undo stack. -/
theorem transaction_net_zero_witness :
    (endTransaction (moveNode "a" 0 0 (moveNode "a" (0 + 5) (0 + 5)
      (beginTransaction sampleState)))).history.undoStack =
      sampleState.history.undoStack :=
  transaction_net_zero sampleState sampleCanvas "a" 0 0 5 5 rfl rfl
    (by decide) (by decide)

/-- C3 (confirmed): whenever at least one undo entry exists (and a canvas
is active), `undo` followed immediately by `redo` restores node and edge
collections structurally equal to the state before the `undo`. -/
theorem undo_redo_roundtrip (s : StoreState) (c : CanvasFile)
    (hc : s.canvas = some c) (hne : s.history.undoStack ≠ []) :
    nodesOf (redo (undo s)) = nodesOf s ∧
    edgesOf (redo (undo s)) = edgesOf s := by
  obtain ⟨L, z, hLz⟩ := (List.eq_nil_or_concat s.history.undoStack).resolve_left hne
  rw [List.concat_eq_append] at hLz
  have hundo : undo s =
      { s with
        canvas := some { c with nodes := z.nodes, edges := z.edges },
        history := { undoStack := L,
                     redoStack := s.history.redoStack ++ [snapOf c] },
        selection := s.selection.filter
          (fun i => decide (i ∈ z.nodes.map (fun n => n.id))) } := by
    unfold undo
    rw [hc, hLz]
    simp [List.getLast?_concat, List.dropLast_concat]
  rw [hundo]
  unfold redo
  simp [List.getLast?_concat, nodesOf, edgesOf, hc, snapOf]

/-- A concrete state with exactly one undo entry. -/
def oneUndoState : StoreState :=
  { canvas := some sampleCanvas, selection := [],
    history := { undoStack := [{ nodes := [], edges := [] }], redoStack := [] },
    inTransaction := false }

/-- C3, witness: the round trip at a concrete one-entry history. -/
theorem undo_redo_roundtrip_witness :
    nodesOf (redo (undo oneUndoState)) = nodesOf oneUndoState ∧
    edgesOf (redo (undo oneUndoState)) = edgesOf oneUndoState :=
  undo_redo_roundtrip oneUndoState sampleCanvas rfl (by decide)

/-- C10 (amended): a begin/end transaction pair with no mutations in
between (hence no net change) leaves the undo stack unchanged -- provided
it held fewer than 30 entries -- and erases the redo stack:
`beginTransaction`'s snapshot clears redo and `endTransaction` only pops
the discarded undo snapshot, never restoring redo entries. -/
theorem begin_end_clears_redo (s : StoreState) (c : CanvasFile)
    (hc : s.canvas = some c) (ht : s.inTransaction = false)
    (hlen : s.history.undoStack.length < HISTORY_LIMIT)
    (_hr : s.history.redoStack ≠ []) :
    (endTransaction (beginTransaction s)).history.undoStack =
      s.history.undoStack ∧
    (endTransaction (beginTransaction s)).history.redoStack = [] := by
  have hno : ¬ (HISTORY_LIMIT < s.history.undoStack.length + 1) := by omega
  have hs1 : beginTransaction s =
      { canvas := some c, selection := s.selection,
        history := { undoStack := s.history.undoStack ++ [snapOf c],
                     redoStack := [] },
        inTransaction := true } := by
    simp [beginTransaction, pushSnapshot, hc, ht, trimPush, hno]
  rw [hs1]
  unfold endTransaction
  simp [List.getLast?_concat, List.dropLast_concat]

/-- A concrete capped-undo state with a non-empty redo stack. -/
def fullStackRedoState : StoreState :=
  { canvas := some sampleCanvas, selection := [],
    history := { undoStack := List.replicate 30 { nodes := [], edges := [] },
                 redoStack := [{ nodes := [], edges := [] }] },
    inTransaction := false }

/-- C10, counterexample to the unamended claim: at the 30-entry cap, the
empty begin/end pair drops the oldest undo entry instead of leaving the
stack unchanged. -/
theorem begin_end_clears_redo_cex :
    (endTransaction (beginTransaction fullStackRedoState)).history.undoStack ≠
      fullStackRedoState.history.undoStack := by
  decide

/-- A concrete state with an empty undo stack and a non-empty redo stack. -/
def redoOnlyState : StoreState :=
  { canvas := some sampleCanvas, selection := [],
    history := { undoStack := [],
                 redoStack := [{ nodes := [], edges := [] }] },
    inTransaction := false }

/-- C10, witness: the amended law at a concrete state with non-empty redo. -/
theorem begin_end_clears_redo_witness :
    (endTransaction (beginTransaction redoOnlyState)).history.undoStack =
      redoOnlyState.history.undoStack ∧
    (endTransaction (beginTransaction redoOnlyState)).history.redoStack = [] :=
  begin_end_clears_redo redoOnlyState sampleCanvas rfl rfl (by decide) (by decide)

theorem updateEdgeList_of_not_contains (eid : String) (u : EdgeUpdate) :
    ∀ es : List CanvasEdge, containsEdge eid es = false →
    updateEdgeList eid u es = es := by
  intro es
  induction es with
  | nil => intro _; rfl
  | cons e rest ih =>
    intro h
    simp only [containsEdge, List.any_cons, Bool.or_eq_false_iff] at h
    obtain ⟨h1, h2⟩ := h
    have h1' : ¬ (e.id = eid) := by simpa using h1
    simp only [updateEdgeList, h1', if_neg, ite_false]
    rw [ih h2]

/-- C5 (amended): a mutation targeting an id absent from the active
document raises no exception and leaves the document unchanged; for
`updateNode` / `moveNode` / `resizeNode` / `updateEdge` the call is a
complete no-op, while `deleteNode` / `deleteEdge` still push an undo
snapshot (clearing the redo stack) before their filters find nothing to
remove, so the node/edge collections and the selection are unchanged but
the history stacks are not. -/
theorem missing_id_noop (s : StoreState) (c : CanvasFile) (nid eid : String)
    (hc : s.canvas = some c)
    (hn : containsNode nid c.nodes = false)
    (he : containsEdge eid c.edges = false)
    (hde : ∀ e ∈ c.edges, e.fromNode ≠ nid ∧ e.toNode ≠ nid)
    (hsel : nid ∉ s.selection) :
    (∀ u, updateNode nid u s = s) ∧
    (∀ x y, moveNode nid x y s = s) ∧
    (∀ w h, resizeNode nid w h s = s) ∧
    (∀ u, updateEdge eid u s = s) ∧
    ((deleteNode nid s).canvas = s.canvas ∧
      (deleteNode nid s).selection = s.selection) ∧
    ((deleteEdge eid s).canvas = s.canvas ∧
      (deleteEdge eid s).selection = s.selection) := by
  have hnodes : ∀ n ∈ c.nodes, n.id ≠ nid := by
    intro n hm
    simp only [containsNode] at hn
    rw [List.any_eq_false] at hn
    simpa using hn n hm
  have hedges : ∀ e ∈ c.edges, e.id ≠ eid := by
    intro e hm
    simp only [containsEdge] at he
    rw [List.any_eq_false] at he
    simpa using he e hm
  have hpsel : (pushSnapshot s).selection = s.selection := by
    rcases hcv : s.canvas with _ | c2 <;> by_cases h : s.inTransaction <;>
      simp [pushSnapshot, hcv, h]
  have hfn : c.nodes.filter (fun n => !decide (n.id = nid)) = c.nodes :=
    List.filter_eq_self.mpr (fun n hm => by simpa using hnodes n hm)
  have hfe : c.edges.filter
      (fun e => !decide (e.fromNode = nid) && !decide (e.toNode = nid)) = c.edges :=
    List.filter_eq_self.mpr (fun e hm => by simpa using hde e hm)
  have hfid : c.edges.filter (fun e => !decide (e.id = eid)) = c.edges :=
    List.filter_eq_self.mpr (fun e hm => by simpa using hedges e hm)
  have hfsel : s.selection.filter (fun x => !decide (x = nid)) = s.selection :=
    List.filter_eq_self.mpr (fun x hm => by
      simp only [Bool.not_eq_eq_eq_not, Bool.not_true, decide_eq_false_iff_not]
      intro hx
      exact hsel (hx ▸ hm))
  refine ⟨?_, ?_, ?_, ?_, ?_, ?_⟩
  · intro u
    simp [updateNode, hc, hn]
  · intro x y
    simp [moveNode, updateNode, hc, hn]
  · intro w h
    simp [resizeNode, updateNode, hc, hn]
  · intro u
    simp [updateEdge, hc, he]
  · constructor
    · simp [deleteNode, pushSnapshot, hc, hfn, hfe]
    · simp [deleteNode, hc, hpsel, hfsel]
  · constructor
    · simp [deleteEdge, pushSnapshot, hc, hfid]
    · simp [deleteEdge, hc, hpsel]

/-- A concrete state whose active document is empty. -/
def emptyState : StoreState :=
  { canvas := some { nodes := [], edges := [] }, selection := [],
    history := { undoStack := [], redoStack := [] }, inTransaction := false }

/-- C5, counterexample to the unamended claim: deleting a nonexistent node
id is observably not a no-op -- it pushes an undo snapshot, so the store
state changes (`canUndo` flips from false to true). -/
theorem missing_id_noop_cex : deleteNode "z" emptyState ≠ emptyState := by
  decide

/-- C5, witness: the amended silent-no-op law at a concrete empty document. -/
theorem missing_id_noop_witness :
    (∀ u, updateNode "z" u emptyState = emptyState) ∧
    (∀ x y, moveNode "z" x y emptyState = emptyState) ∧
    (∀ w h, resizeNode "z" w h emptyState = emptyState) ∧
    (∀ u, updateEdge "w" u emptyState = emptyState) ∧
    ((deleteNode "z" emptyState).canvas = emptyState.canvas ∧
      (deleteNode "z" emptyState).selection = emptyState.selection) ∧
    ((deleteEdge "w" emptyState).canvas = emptyState.canvas ∧
      (deleteEdge "w" emptyState).selection = emptyState.selection) :=
  missing_id_noop emptyState { nodes := [], edges := [] } "z" "w" rfl
    (by decide) (by decide) (by decide) (by decide)

end CanvasStore

/-! The history-free store variant (`src/lib/stores/canvas.svelte.ts`):
the same document model with the lock list in use.  Its `deleteNode`
removes the node, the edges and the locks referencing it, and its
selection entry, in one synchronous step. -/
namespace LockStore

/-- The state slice of the lock-bearing store variant: the active canvas
and the selection (it keeps no history). -/
structure State where
  canvas : Option CanvasFile
  selection : List String
deriving DecidableEq, Repr

/-- The `get nodes()` getter. -/
def nodesOf (s : State) : List CanvasNode :=
  match s.canvas with
  | some c => c.nodes
  | none => []

/-- The `get edges()` getter. -/
def edgesOf (s : State) : List CanvasEdge :=
  match s.canvas with
  | some c => c.edges
  | none => []

/-- The `get locks()` getter: `this.activeCanvas?.['x-locks'] ?? []`. -/
def locksOf (s : State) : List NodeLock :=
  match s.canvas with
  | some c => c.xLocks.getD []
  | none => []

/-- `CanvasStore.deleteNode` of the lock-bearing variant: remove the node,
every edge whose `fromNode` or `toNode` is the id, every lock whose
`nodeA` or `nodeB` is the id (when the lock list exists), and the
selection entry, all in the same synchronous call. -/
def deleteNode (id : String) (s : State) : State :=
  match s.canvas with
  | none => s
  | some c =>
    { canvas := some { c with
        nodes := c.nodes.filter (fun n => decide (n.id ≠ id)),
        edges := c.edges.filter (fun e =>
          decide (e.fromNode ≠ id) && decide (e.toNode ≠ id)),
        xLocks := match c.xLocks with
          | some ls => some (ls.filter (fun l =>
              decide (l.nodeA ≠ id) && decide (l.nodeB ≠ id)))
          | none => none },
      selection := s.selection.filter (fun x => decide (x ≠ id)) }

/-- C9 (confirmed): deleting a node id present in the document removes, in
the same logical operation, the node itself, every edge referencing it,
every lock referencing it, and its selection entry -- afterwards no node,
edge, lock, or selection entry carrying the deleted id is observable. -/
theorem deleteNode_no_orphans (s : State) (c : CanvasFile) (id : String)
    (hc : s.canvas = some c)
    (_hpresent : CanvasStore.containsNode id c.nodes = true) :
    (∀ n ∈ nodesOf (deleteNode id s), n.id ≠ id) ∧
    (∀ e ∈ edgesOf (deleteNode id s), e.fromNode ≠ id ∧ e.toNode ≠ id) ∧
    (∀ l ∈ locksOf (deleteNode id s), l.nodeA ≠ id ∧ l.nodeB ≠ id) ∧
    id ∉ (deleteNode id s).selection := by
  refine ⟨?_, ?_, ?_, ?_⟩
  · intro n hn
    simp only [deleteNode, hc, nodesOf, List.mem_filter] at hn
    simpa using hn.2
  · intro e he
    simp only [deleteNode, hc, edgesOf, List.mem_filter] at he
    have := he.2
    simp only [Bool.and_eq_true, decide_eq_true_iff] at this
    exact this
  · intro l hl
    simp only [deleteNode, hc, locksOf] at hl
    rcases hxl : c.xLocks with _ | ls
    · rw [hxl] at hl
      simp at hl
    · rw [hxl] at hl
      simp only [Option.getD_some, List.mem_filter] at hl
      have := hl.2
      simp only [Bool.and_eq_true, decide_eq_true_iff] at this
      exact this
  · intro hmem
    simp only [deleteNode, hc] at hmem
    rw [List.mem_filter] at hmem
    simp at hmem

/-- A concrete document with a node, an edge, a lock, and a selection entry
all referencing id `a`. -/
def richState : State :=
  { canvas := some
      { nodes := [{ id := "a", x := 0, y := 0, width := 200, height := 100,
                    payload := .text "" },
                  { id := "b", x := 300, y := 0, width := 200, height := 100,
                    payload := .text "" }],
        edges := [{ id := "e1", fromNode := "a", toNode := "b" }],
        xLocks := some [{ id := "l1", nodeA := "a", sideA := .right,
                          nodeB := "b", sideB := .left }] },
    selection := ["a"] }

/-- C9, witness: deleting node `a` from the concrete document leaves no
edge, lock, or selection entry referencing it. -/
theorem deleteNode_no_orphans_witness :
    (∀ n ∈ nodesOf (deleteNode "a" richState), n.id ≠ "a") ∧
    (∀ e ∈ edgesOf (deleteNode "a" richState),
      e.fromNode ≠ "a" ∧ e.toNode ≠ "a") ∧
    (∀ l ∈ locksOf (deleteNode "a" richState),
      l.nodeA ≠ "a" ∧ l.nodeB ≠ "a") ∧
    "a" ∉ (deleteNode "a" richState).selection :=
  deleteNode_no_orphans richState
    { nodes := [{ id := "a", x := 0, y := 0, width := 200, height := 100,
                  payload := .text "" },
                { id := "b", x := 300, y := 0, width := 200, height := 100,
                  payload := .text "" }],
      edges := [{ id := "e1", fromNode := "a", toNode := "b" }],
      xLocks := some [{ id := "l1", nodeA := "a", sideA := .right,
                        nodeB := "b", sideB := .left }] }
    "a" rfl (by decide)

end LockStore

/-! The resize interaction handler of `canvas-object.svelte`: the minimum
bounds live here, not in the store. -/
namespace ResizeHandler

/-- `const MIN_WIDTH = 120`. -/
def MIN_WIDTH : ℚ := 120

/-- `const MIN_HEIGHT = 80`. -/
def MIN_HEIGHT : ℚ := 80

/-- The drag-start record `resizeStart = { x, y, width, height }`. -/
structure ResizeStart where
  x : ℚ
  y : ℚ
  width : ℚ
  height : ℚ
deriving DecidableEq, Repr

/-- `handleResizeMouseMove` while a resize is active: compute the
zoom-scaled pointer delta, clamp the requested dimensions to the minimum
bounds with `Math.max`, and hand the result to the store's `resizeNode`. -/
def handleResizeMouseMove (resizeStart : ResizeStart) (zoom : ℚ)
    (clientX clientY : ℚ) (nodeId : String) (s : StoreState) : StoreState :=
  let dx := (clientX - resizeStart.x) / zoom
  let dy := (clientY - resizeStart.y) / zoom
  let newWidth := max MIN_WIDTH (resizeStart.width + dx)
  let newHeight := max MIN_HEIGHT (resizeStart.height + dy)
  CanvasStore.resizeNode nodeId newWidth newHeight s

/-- A concrete state for the resize scenario: one 200 by 100 node. -/
def resizeState : StoreState :=
  { canvas := some { nodes := [{ id := "a", x := 0, y := 0, width := 200,
                                 height := 100, payload := .text "" }],
                     edges := [] },
    selection := [], history := { undoStack := [], redoStack := [] },
    inTransaction := false }

/-- C6, counterexample to the claim as stated: the resize operation the
core exposes (`CanvasStore.resizeNode`) performs no clamping -- requesting
10 by 10 stores exactly 10 by 10, below the 120 by 80 minimums. -/
theorem resizeNode_stores_unclamped_cex :
    CanvasStore.nodesOf (CanvasStore.resizeNode "a" 10 10 resizeState) =
      [{ id := "a", x := 0, y := 0, width := 10, height := 10,
         payload := .text "" }] ∧
    (10 : ℚ) < 120 ∧ (10 : ℚ) < 80 := by
  refine ⟨by decide, by norm_num, by norm_num⟩

theorem updateNodeList_mem (nid : String) (u : CanvasStore.NodeUpdate) :
    ∀ (ns : List CanvasNode) (n : CanvasNode),
    n ∈ CanvasStore.updateNodeList nid u ns →
    n ∈ ns ∨ ∃ m ∈ ns, n = CanvasStore.applyNodeUpdate u m := by
  intro ns
  induction ns with
  | nil => intro n hn; exact absurd hn (List.not_mem_nil n)
  | cons m rest ih =>
    intro n hn
    by_cases hid : m.id = nid
    · simp only [CanvasStore.updateNodeList, hid, if_pos] at hn
      rcases List.mem_cons.mp hn with h | h
      · exact Or.inr ⟨m, List.mem_cons_self _ _, h⟩
      · exact Or.inl (List.mem_cons_of_mem _ h)
    · simp only [CanvasStore.updateNodeList, hid, if_neg, ite_false] at hn
      rcases List.mem_cons.mp hn with h | h
      · exact Or.inl (h ▸ List.mem_cons_self _ _)
      · rcases ih n h with h' | ⟨m', hm', he⟩
        · exact Or.inl (List.mem_cons_of_mem _ h')
        · exact Or.inr ⟨m', List.mem_cons_of_mem _ hm', he⟩

/-- C6 (amended): the 120 by 80 minimum bounds are enforced by the resize
pointer handler, which clamps the requested dimensions with `Math.max`
before calling the store; consequently every node present after a handler
step either was already in the document unchanged or carries width at
least 120 and height at least 80.  The store's own `resizeNode` applies
dimensions unclamped (see the counterexample). -/
theorem handleResize_clamped (resizeStart : ResizeStart) (zoom : ℚ)
    (clientX clientY : ℚ) (nodeId : String) (s : StoreState) (n : CanvasNode)
    (hn : n ∈ CanvasStore.nodesOf
      (handleResizeMouseMove resizeStart zoom clientX clientY nodeId s)) :
    n ∈ CanvasStore.nodesOf s ∨
      (MIN_WIDTH ≤ n.width ∧ MIN_HEIGHT ≤ n.height) := by
  unfold handleResizeMouseMove CanvasStore.resizeNode CanvasStore.updateNode at hn
  rcases hcv : s.canvas with _ | c
  · rw [hcv] at hn
    exact Or.inl hn
  · rw [hcv] at hn
    by_cases hf : CanvasStore.containsNode nodeId c.nodes
    · simp only [hf, if_pos, ite_true] at hn
      simp only [CanvasStore.nodesOf, CanvasStore.pushSnapshot, hcv] at hn
      have hn' := hn
      by_cases htr : s.inTransaction
      all_goals {
        simp only [htr, ite_true, ite_false, hcv] at hn'
        rcases updateNodeList_mem nodeId _ c.nodes n hn' with h | ⟨m, _, he⟩
        · exact Or.inl (by simpa [CanvasStore.nodesOf, hcv] using h)
        · refine Or.inr ?_
          rw [he]
          simp only [CanvasStore.applyNodeUpdate, Option.getD_some]
          exact ⟨le_max_left _ _, le_max_left _ _⟩
      }
    · simp only [Bool.not_eq_true] at hf
      simp only [hf, Bool.false_eq_true, ite_false] at hn
      exact Or.inl (by simpa [CanvasStore.nodesOf, hcv] using hn)

/-- The node a far-below-minimum drag leaves behind: clamped to 120 by 80. -/
def clampedNode : CanvasNode :=
  { id := "a", x := 0, y := 0, width := 120, height := 80, payload := .text "" }

/-- C6, witness: a concrete resize drag far below the minimums stores the
clamped 120 by 80 node. -/
theorem handleResize_clamped_witness :
    clampedNode ∈ CanvasStore.nodesOf resizeState ∨
      (MIN_WIDTH ≤ clampedNode.width ∧ MIN_HEIGHT ≤ clampedNode.height) := by
  refine handleResize_clamped { x := 0, y := 0, width := 200, height := 100 } 1
    (-1000) (-1000) "a" resizeState clampedNode ?_
  have h : CanvasStore.nodesOf (handleResizeMouseMove { x := 0, y := 0, width := 200, height := 100 } 1 (-1000) (-1000) "a" resizeState) = [clampedNode] := by
    norm_num [handleResizeMouseMove, MIN_WIDTH, MIN_HEIGHT, CanvasStore.resizeNode,
      CanvasStore.updateNode, CanvasStore.containsNode, resizeState,
      CanvasStore.pushSnapshot, CanvasStore.nodesOf, CanvasStore.updateNodeList,
      CanvasStore.applyNodeUpdate, clampedNode]
  rw [h]
  exact List.mem_cons_self _ _

end ResizeHandler

namespace LockStore

/-- Every id a lock names: the pool of ids the cluster traversal can ever
enqueue beyond its start node. -/
def lockEndpoints (locks : List NodeLock) : List String :=
  locks.flatMap (fun l => [l.nodeA, l.nodeB])

/-- The enqueues of one iteration of `getLockedCluster`'s loop body: for
each lock touching `current`, the opposite endpoint unless already
visited. -/
def pushesFor (locks : List NodeLock) (visited : List String)
    (current : String) : List String :=
  locks.flatMap (fun l =>
    (if l.nodeA = current ∧ l.nodeB ∉ visited then [l.nodeB] else []) ++
    (if l.nodeB = current ∧ l.nodeA ∉ visited then [l.nodeA] else []))

theorem pushesFor_length_le (locks : List NodeLock) (visited : List String)
    (current : String) :
    (pushesFor locks visited current).length ≤ 2 * locks.length := by
  induction locks with
  | nil => simp [pushesFor]
  | cons l rest ih =>
    simp only [pushesFor, List.flatMap_cons, List.length_append] at ih ⊢
    have h1 : (if l.nodeA = current ∧ l.nodeB ∉ visited
        then [l.nodeB] else []).length ≤ 1 := by
      split <;> simp
    have h2 : (if l.nodeB = current ∧ l.nodeA ∉ visited
        then [l.nodeA] else []).length ≤ 1 := by
      split <;> simp
    simp only [List.length_cons]
    omega

theorem pushesFor_of_not_endpoint (locks : List NodeLock)
    (visited : List String) (current : String) :
    current ∉ lockEndpoints locks → pushesFor locks visited current = [] := by
  induction locks with
  | nil => intro _; rfl
  | cons l rest ih =>
    intro h
    have h' : current ≠ l.nodeA ∧ current ≠ l.nodeB ∧
        current ∉ lockEndpoints rest := by
      simpa [lockEndpoints, not_or] using h
    simp only [pushesFor, List.flatMap_cons]
    rw [if_neg (fun hh => h'.1 hh.1.symm), if_neg (fun hh => h'.2.1 hh.1.symm)]
    simpa [pushesFor] using ih h'.2.2

/-- The lexicographic-style termination measure of the traversal:
unvisited lock endpoints weighted by the maximal enqueue burst, plus the
queue length. -/
def bfsMeasure (locks : List NodeLock) (visited queue : List String) : Nat :=
  ((lockEndpoints locks).toFinset.filter (fun x => x ∉ visited)).card *
    (2 * locks.length + 1) + queue.length

/-- The loop of `CanvasStore.getLockedCluster`: pop the queue head; if
unvisited, record it and enqueue the unvisited opposite endpoints of every
lock touching it. -/
def bfs (locks : List NodeLock) (visited queue : List String) : List String :=
  match queue with
  | [] => visited
  | current :: rest =>
    if current ∈ visited then bfs locks visited rest
    else bfs locks (visited ++ [current])
      (rest ++ pushesFor locks (visited ++ [current]) current)
termination_by bfsMeasure locks visited queue
decreasing_by
· simp only [bfsMeasure, List.length_cons]
  omega
· rename_i h
  simp only [bfsMeasure, List.length_cons, List.length_append]
  by_cases hc : current ∈ lockEndpoints locks
  · have hcur : current ∈
        (lockEndpoints locks).toFinset.filter (fun x => x ∉ visited) := by
      simp [List.mem_toFinset, hc, h]
    have hsub : (lockEndpoints locks).toFinset.filter
          (fun x => x ∉ visited ++ [current]) ⊆
        (lockEndpoints locks).toFinset.filter (fun x => x ∉ visited) := by
      intro x hx
      simp only [Finset.mem_filter, List.mem_append, List.mem_singleton] at hx ⊢
      exact ⟨hx.1, fun hv => hx.2 (Or.inl hv)⟩
    have hnot : current ∉ (lockEndpoints locks).toFinset.filter
        (fun x => x ∉ visited ++ [current]) := by
      simp
    have hlt : ((lockEndpoints locks).toFinset.filter
          (fun x => x ∉ visited ++ [current])).card <
        ((lockEndpoints locks).toFinset.filter (fun x => x ∉ visited)).card :=
      Finset.card_lt_card ⟨hsub, fun hsup => hnot (hsup hcur)⟩
    have hp := pushesFor_length_le locks (visited ++ [current]) current
    have hmul : ((lockEndpoints locks).toFinset.filter
            (fun x => x ∉ visited ++ [current])).card * (2 * locks.length + 1) +
          (2 * locks.length + 1) ≤
        ((lockEndpoints locks).toFinset.filter
            (fun x => x ∉ visited)).card * (2 * locks.length + 1) := by
      have := Nat.mul_le_mul_right (2 * locks.length + 1) hlt
      nlinarith [this]
    linarith [hmul, hp]
  · rw [pushesFor_of_not_endpoint locks (visited ++ [current]) current hc]
    have hsub : (lockEndpoints locks).toFinset.filter
          (fun x => x ∉ visited ++ [current]) ⊆
        (lockEndpoints locks).toFinset.filter (fun x => x ∉ visited) := by
      intro x hx
      simp only [Finset.mem_filter, List.mem_append, List.mem_singleton] at hx ⊢
      exact ⟨hx.1, fun hv => hx.2 (Or.inl hv)⟩
    have hle := Finset.card_le_card hsub
    have := Nat.mul_le_mul_right (2 * locks.length + 1) hle
    simp only [List.length_nil]
    linarith [this]

end LockStore

namespace LockStore

/-- Two ids are adjacent when some lock joins them (locks are undirected:
either orientation counts). -/
def adj (locks : List NodeLock) (x y : String) : Prop :=
  ∃ l ∈ locks, (l.nodeA = x ∧ l.nodeB = y) ∨ (l.nodeA = y ∧ l.nodeB = x)

/-- Transitive reachability over the lock graph: the mathematical cluster
relation the traversal is meant to compute. -/
def Reach (locks : List NodeLock) (a x : String) : Prop :=
  Relation.ReflTransGen (adj locks) a x

theorem adj_symm (locks : List NodeLock) : Symmetric (adj locks) := by
  intro x y ⟨l, hl, h⟩
  exact ⟨l, hl, h.symm⟩

theorem mem_pushesFor_adj (locks : List NodeLock) (w : List String)
    (cur v : String) (hv : v ∈ pushesFor locks w cur) : adj locks cur v := by
  simp only [pushesFor, List.mem_flatMap, List.mem_append] at hv
  obtain ⟨l, hl, hmem⟩ := hv
  rcases hmem with hmem | hmem
  · by_cases hcond : l.nodeA = cur ∧ l.nodeB ∉ w
    · rw [if_pos hcond] at hmem
      simp only [List.mem_singleton] at hmem
      exact ⟨l, hl, Or.inl ⟨hcond.1, hmem.symm ▸ rfl⟩⟩
    · rw [if_neg hcond] at hmem
      exact absurd hmem (List.not_mem_nil v)
  · by_cases hcond : l.nodeB = cur ∧ l.nodeA ∉ w
    · rw [if_pos hcond] at hmem
      simp only [List.mem_singleton] at hmem
      exact ⟨l, hl, Or.inr ⟨hmem.symm ▸ rfl, hcond.1⟩⟩
    · rw [if_neg hcond] at hmem
      exact absurd hmem (List.not_mem_nil v)

theorem pushesFor_complete (locks : List NodeLock) (w : List String)
    (cur v : String) (ha : adj locks cur v) :
    v ∈ w ∨ v ∈ pushesFor locks w cur := by
  by_cases hw : v ∈ w
  · exact Or.inl hw
  · refine Or.inr ?_
    obtain ⟨l, hl, hor⟩ := ha
    simp only [pushesFor, List.mem_flatMap]
    refine ⟨l, hl, ?_⟩
    rcases hor with ⟨h1, h2⟩ | ⟨h1, h2⟩
    · refine List.mem_append.mpr (Or.inl ?_)
      rw [if_pos ⟨h1, by rw [h2]; exact hw⟩]
      simp [h2]
    · refine List.mem_append.mpr (Or.inr ?_)
      rw [if_pos ⟨h2, by rw [h1]; exact hw⟩]
      simp [h1]

theorem bfs_spec (locks : List NodeLock) (a : String) :
    ∀ (visited queue : List String),
    (∀ v ∈ visited, Reach locks a v) →
    (∀ v ∈ queue, Reach locks a v) →
    (∀ u v, u ∈ visited → adj locks u v → v ∈ visited ∨ v ∈ queue) →
    (a ∈ visited ∨ a ∈ queue) →
    (∀ x ∈ bfs locks visited queue, Reach locks a x) ∧
    a ∈ bfs locks visited queue ∧
    (∀ u v, u ∈ bfs locks visited queue → adj locks u v →
      v ∈ bfs locks visited queue) := by
  intro visited queue
  induction visited, queue using bfs.induct locks with
  | case1 visited =>
    intro hv _ hcl hstart
    rw [bfs]
    refine ⟨hv, ?_, ?_⟩
    · rcases hstart with h | h
      · exact h
      · exact absurd h (List.not_mem_nil a)
    · intro u v hu hadj
      rcases hcl u v hu hadj with h | h
      · exact h
      · exact absurd h (List.not_mem_nil v)
  | case2 visited current rest hin ih =>
    intro hv hq hcl hstart
    rw [bfs, if_pos hin]
    refine ih (fun v hm => hv v hm) (fun v hm => hq v (List.mem_cons_of_mem _ hm))
      ?_ ?_
    · intro u v hu hadj
      rcases hcl u v hu hadj with h | h
      · exact Or.inl h
      · rcases List.mem_cons.mp h with h | h
        · exact Or.inl (h ▸ hin)
        · exact Or.inr h
    · rcases hstart with h | h
      · exact Or.inl h
      · rcases List.mem_cons.mp h with h | h
        · exact Or.inl (h ▸ hin)
        · exact Or.inr h
  | case3 visited current rest hnin ih =>
    intro hv hq hcl hstart
    rw [bfs, if_neg hnin]
    have hcurR : Reach locks a current := hq current (List.mem_cons_self _ _)
    refine ih ?_ ?_ ?_ ?_
    · intro v hm
      rcases List.mem_append.mp hm with h | h
      · exact hv v h
      · have hvc : v = current := by simpa using h
        exact hvc ▸ hcurR
    · intro v hm
      rcases List.mem_append.mp hm with h | h
      · exact hq v (List.mem_cons_of_mem _ h)
      · exact hcurR.tail (mem_pushesFor_adj locks _ current v h)
    · intro u v hu hadj
      rcases List.mem_append.mp hu with hu | hu
      · rcases hcl u v hu hadj with h | h
        · exact Or.inl (List.mem_append.mpr (Or.inl h))
        · rcases List.mem_cons.mp h with h | h
          · exact Or.inl (List.mem_append.mpr (Or.inr (by simp [h])))
          · exact Or.inr (List.mem_append.mpr (Or.inl h))
      · have hucur : u = current := by simpa using hu
        rcases pushesFor_complete locks (visited ++ [current]) current v
            (hucur ▸ hadj) with h | h
        · exact Or.inl h
        · exact Or.inr (List.mem_append.mpr (Or.inr h))
    · rcases hstart with h | h
      · exact Or.inl (List.mem_append.mpr (Or.inl h))
      · rcases List.mem_cons.mp h with h | h
        · exact Or.inl (List.mem_append.mpr (Or.inr (by simp [h])))
        · exact Or.inr (List.mem_append.mpr (Or.inl h))

end LockStore

namespace LockStore

/-- `CanvasStore.getLockedCluster`: breadth-first traversal from `nodeId`
over the lock list as an undirected graph; returns every id transitively
reachable, the start node included (`Array.from(visited)`). -/
def getLockedCluster (locks : List NodeLock) (nodeId : String) : List String :=
  bfs locks [] [nodeId]

theorem mem_getLockedCluster (locks : List NodeLock) (a x : String) :
    x ∈ getLockedCluster locks a ↔ Reach locks a x := by
  have hspec := bfs_spec locks a [] [a]
    (by intro v hv; exact absurd hv (List.not_mem_nil v))
    (by
      intro v hv
      have : v = a := by simpa using hv
      exact this ▸ Relation.ReflTransGen.refl)
    (by intro u v hu _; exact absurd hu (List.not_mem_nil u))
    (Or.inr (List.mem_cons_self _ _))
  constructor
  · intro hx
    exact hspec.1 x hx
  · intro hr
    induction hr with
    | refl => exact hspec.2.1
    | tail _ hadj ih => exact hspec.2.2 _ _ ih hadj

/-- C7 (confirmed): `getLockedCluster` always contains its start node, and
membership is symmetric and transitive: if B is in cluster(A) then A is in
cluster(B), and if additionally C is in cluster(B) then C is in
cluster(A). -/
theorem getLockedCluster_props (locks : List NodeLock) (A B C : String)
    (hB : B ∈ getLockedCluster locks A) (hC : C ∈ getLockedCluster locks B) :
    (∀ X, X ∈ getLockedCluster locks X) ∧
    A ∈ getLockedCluster locks B ∧
    C ∈ getLockedCluster locks A := by
  have hsymm : Symmetric (Reach locks) :=
    Relation.ReflTransGen.symmetric (adj_symm locks)
  refine ⟨?_, ?_, ?_⟩
  · intro X
    exact (mem_getLockedCluster locks X X).mpr Relation.ReflTransGen.refl
  · exact (mem_getLockedCluster locks B A).mpr
      (hsymm ((mem_getLockedCluster locks A B).mp hB))
  · exact (mem_getLockedCluster locks A C).mpr
      (((mem_getLockedCluster locks A B).mp hB).trans
        ((mem_getLockedCluster locks B C).mp hC))

/-- A two-lock chain: `a` locked to `b`, `b` locked to `c`. -/
def chainLocks : List NodeLock :=
  [{ id := "l1", nodeA := "a", sideA := .right, nodeB := "b", sideB := .left },
   { id := "l2", nodeA := "b", sideA := .right, nodeB := "c", sideB := .left }]

/-- C7, witness: the cluster laws instantiated on the concrete two-lock
chain (B = b reachable from A = a, C = c reachable from B = b). -/
theorem getLockedCluster_props_witness :
    (∀ X, X ∈ getLockedCluster chainLocks X) ∧
    "a" ∈ getLockedCluster chainLocks "b" ∧
    "c" ∈ getLockedCluster chainLocks "a" :=
  getLockedCluster_props chainLocks "a" "b" "c"
    ((mem_getLockedCluster chainLocks "a" "b").mpr
      (Relation.ReflTransGen.single
        ⟨{ id := "l1", nodeA := "a", sideA := .right, nodeB := "b", sideB := .left },
         by simp [chainLocks], Or.inl ⟨rfl, rfl⟩⟩))
    ((mem_getLockedCluster chainLocks "b" "c").mpr
      (Relation.ReflTransGen.single
        ⟨{ id := "l2", nodeA := "b", sideA := .right, nodeB := "c", sideB := .left },
         by simp [chainLocks], Or.inl ⟨rfl, rfl⟩⟩))

end LockStore

/-! The pure geometry of `src/lib/utils/geometry.ts`: edge positions,
perpendicular-axis overlap, and edge-snap detection. -/
namespace Geometry

/-- The perpendicular axis a side pairing is checked against. -/
inductive Axis
  | horizontal
  | vertical
deriving DecidableEq, Repr

/-- `Math.abs`, written so the kernel can evaluate it directly. -/
def absQ (q : ℚ) : ℚ := if q < 0 then -q else q

theorem absQ_eq_abs (q : ℚ) : absQ q = |q| := by
  rcases lt_or_ge q 0 with h | h
  · simp [absQ, h, abs_of_neg h]
  · simp [absQ, not_lt.mpr h, abs_of_nonneg h]

/-- `getEdgePosition(node, side)`. -/
def getEdgePosition (node : CanvasNode) : Side → ℚ
  | .left => node.x
  | .right => node.x + node.width
  | .top => node.y
  | .bottom => node.y + node.height

/-- `hasOverlap(dragged, target, axis)`: vertical-range overlap for
left/right snaps, horizontal-range overlap for top/bottom snaps (strict
inequalities on both ends). -/
def hasOverlap (dragged target : CanvasNode) (axis : Axis) : Prop :=
  match axis with
  | .vertical =>
    target.y < dragged.y + dragged.height ∧ dragged.y < target.y + target.height
  | .horizontal =>
    target.x < dragged.x + dragged.width ∧ dragged.x < target.x + target.width

instance (dragged target : CanvasNode) (axis : Axis) :
    Decidable (hasOverlap dragged target axis) := by
  unfold hasOverlap
  cases axis <;> exact And.decidable

/-- `interface SnapResult`. -/
structure SnapResult where
  targetNode : CanvasNode
  draggedSide : Side
  targetSide : Side
  snapX : ℚ
  snapY : ℚ
  distance : ℚ
deriving DecidableEq, Repr

/-- The `edgePairs` enumeration, in source order: right-left, left-right,
bottom-top, top-bottom. -/
def edgePairs : List (Side × Side × Axis) :=
  [(.right, .left, .vertical), (.left, .right, .vertical),
   (.bottom, .top, .horizontal), (.top, .bottom, .horizontal)]

/-- The snap-adjusted position `(snapX, snapY)` for a dragged side flush
against the target edge. -/
def snapPosition (dragged : CanvasNode) (draggedSide : Side)
    (targetEdge : ℚ) : ℚ × ℚ :=
  match draggedSide with
  | .right => (targetEdge - dragged.width, dragged.y)
  | .left => (targetEdge, dragged.y)
  | .bottom => (dragged.x, targetEdge - dragged.height)
  | .top => (dragged.x, targetEdge)

/-- The candidate record built inside the loop for one target and pair. -/
def mkSnapResult (dragged target : CanvasNode)
    (p : Side × Side × Axis) : SnapResult :=
  let targetEdge := getEdgePosition target p.2.1
  { targetNode := target, draggedSide := p.1, targetSide := p.2.1,
    snapX := (snapPosition dragged p.1 targetEdge).1,
    snapY := (snapPosition dragged p.1 targetEdge).2,
    distance := absQ (getEdgePosition dragged p.1 - targetEdge) }

/-- Whether a target/pair combination enters the comparison: perpendicular
overlap holds and the edge distance is within the threshold. -/
def qualifies (dragged target : CanvasNode) (threshold : ℚ)
    (p : Side × Side × Axis) : Prop :=
  hasOverlap dragged target p.2.2 ∧
    absQ (getEdgePosition dragged p.1 - getEdgePosition target p.2.1) ≤ threshold

instance (dragged target : CanvasNode) (threshold : ℚ) (p : Side × Side × Axis) :
    Decidable (qualifies dragged target threshold p) := by
  unfold qualifies
  exact And.decidable

/-- `if (!closestSnap || distance < closestSnap.distance) closestSnap = ...`:
keep the strictly closer candidate, first found wins on ties. -/
def better (acc : Option SnapResult) (r : SnapResult) : Option SnapResult :=
  match acc with
  | none => some r
  | some c => if r.distance < c.distance then some r else acc

/-- The body of the inner `for` loop over `edgePairs`. -/
def stepPair (dragged target : CanvasNode) (threshold : ℚ)
    (acc : Option SnapResult) (p : Side × Side × Axis) : Option SnapResult :=
  if qualifies dragged target threshold p
  then better acc (mkSnapResult dragged target p) else acc

/-- `detectEdgeSnap(dragged, others, threshold = 8)`: iterate the targets
in order (skipping the dragged node itself), the four side pairings in
enumeration order, and keep the closest qualifying candidate. -/
def detectEdgeSnap (dragged : CanvasNode) (others : List CanvasNode)
    (threshold : ℚ := 8) : Option SnapResult :=
  others.foldl (fun acc target =>
    if target.id = dragged.id then acc
    else edgePairs.foldl (stepPair dragged target threshold) acc) none

/-- The qualifying candidates of one target, in pair-enumeration order. -/
def pairCandidates (dragged target : CanvasNode) (threshold : ℚ) :
    List SnapResult :=
  edgePairs.filterMap (fun p =>
    if qualifies dragged target threshold p
    then some (mkSnapResult dragged target p) else none)

/-- Every qualifying candidate, in the exact order the nested loops of
`detectEdgeSnap` encounter them: targets in input order, pairs in
enumeration order. -/
def snapCandidates (dragged : CanvasNode) (others : List CanvasNode)
    (threshold : ℚ) : List SnapResult :=
  others.flatMap (fun t =>
    if t.id = dragged.id then [] else pairCandidates dragged t threshold)

theorem foldl_stepPair_eq (dragged target : CanvasNode) (threshold : ℚ) :
    ∀ (ps : List (Side × Side × Axis)) (acc : Option SnapResult),
    ps.foldl (stepPair dragged target threshold) acc =
      (ps.filterMap (fun p =>
        if qualifies dragged target threshold p
        then some (mkSnapResult dragged target p) else none)).foldl better acc := by
  intro ps
  induction ps with
  | nil => intro acc; rfl
  | cons p rest ih =>
    intro acc
    by_cases hq : qualifies dragged target threshold p
    · simp only [List.foldl_cons, List.filterMap_cons, hq, if_pos, ite_true,
        stepPair]
      exact ih _
    · simp only [List.foldl_cons, List.filterMap_cons, hq, if_neg, ite_false,
        stepPair, Bool.false_eq_true]
      exact ih _

theorem detectEdgeSnap_eq_foldl (dragged : CanvasNode) (threshold : ℚ) :
    ∀ (others : List CanvasNode) (acc : Option SnapResult),
    others.foldl (fun acc target =>
      if target.id = dragged.id then acc
      else edgePairs.foldl (stepPair dragged target threshold) acc) acc =
      (snapCandidates dragged others threshold).foldl better acc := by
  intro others
  induction others with
  | nil => intro acc; rfl
  | cons t rest ih =>
    intro acc
    by_cases hid : t.id = dragged.id
    · simp only [List.foldl_cons, snapCandidates, List.flatMap_cons, hid,
        ite_true, List.nil_append]
      exact ih acc
    · simp only [List.foldl_cons, snapCandidates, List.flatMap_cons, hid,
        ite_false, List.foldl_append]
      rw [ih, foldl_stepPair_eq]
      rfl

theorem foldl_better_acc :
    ∀ (l : List SnapResult) (c : SnapResult),
    ∃ r, l.foldl better (some c) = some r ∧
      ∃ pre post, c :: l = pre ++ r :: post ∧
        (∀ x ∈ pre, r.distance < x.distance) ∧
        (∀ x ∈ post, r.distance ≤ x.distance) := by
  intro l
  induction l with
  | nil =>
    intro c
    exact ⟨c, rfl, [], [], rfl, by simp, by simp⟩
  | cons y ys ih =>
    intro c
    by_cases hlt : y.distance < c.distance
    · obtain ⟨r, hfold, pre', post', hdec, hpre, hpost⟩ := ih y
      have hrc : r.distance < c.distance := by
        cases pre' with
        | nil =>
          have : r = y := by
            have h' := congrArg (fun t => t.headD r) hdec
            simpa using h'.symm
          exact this ▸ hlt
        | cons z pre'' =>
          have hz : z = y := by
            have h' := congrArg (fun t => t.headD z) hdec
            simpa using h'.symm
          exact lt_trans (hpre z (List.mem_cons_self _ _)) (hz ▸ hlt)
      refine ⟨r, ?_, c :: pre', post', ?_, ?_, hpost⟩
      · simpa [better, hlt] using hfold
      · simpa using congrArg (List.cons c) hdec
      · intro x hx
        rcases List.mem_cons.mp hx with h | h
        · exact h ▸ hrc
        · exact hpre x h
    · obtain ⟨r, hfold, pre', post', hdec, hpre, hpost⟩ := ih c
      have hfold' : (y :: ys).foldl better (some c) = some r := by
        simpa [better, hlt] using hfold
      cases pre' with
      | nil =>
        have hrc : r = c := by
          have h' := congrArg (fun t => t.headD r) hdec
          simpa using h'.symm
        have hys : ys = post' := by simpa [hrc] using congrArg List.tail hdec
        refine ⟨r, hfold', [], y :: ys, by simp [hrc], by simp, ?_⟩
        intro x hx
        rcases List.mem_cons.mp hx with h | h
        · subst h
          exact hrc ▸ le_of_not_lt hlt
        · exact hpost x (hys ▸ h)
      | cons z pre'' =>
        have hz : z = c := by
          have h' := congrArg (fun t => t.headD z) hdec
          simpa using h'.symm
        have hys : ys = pre'' ++ r :: post' := by
          simpa using congrArg List.tail hdec
        have hrc : r.distance < c.distance :=
          hz ▸ hpre z (List.mem_cons_self _ _)
        refine ⟨r, hfold', c :: y :: pre'', post', by simp [hys], ?_, hpost⟩
        intro x hx
        rcases List.mem_cons.mp hx with h | h
        · exact h ▸ hrc
        · rcases List.mem_cons.mp h with h' | h'
          · exact h' ▸ lt_of_lt_of_le hrc (le_of_not_lt hlt)
          · exact hpre x (hz ▸ List.mem_cons_of_mem _ h')

/-- C8 (amended): `detectEdgeSnap` returns `null` exactly when no
side-pairing candidate (restricted to pairs whose nodes overlap on the
perpendicular axis) lies within the threshold; otherwise it returns the
first candidate of minimal absolute edge distance in the order the nested
loops enumerate: targets in input order and, within one target, the pairs
right-left, left-right, bottom-top, top-bottom -- the first found wins on
an exact tie. -/
theorem detectEdgeSnap_spec (dragged : CanvasNode) (others : List CanvasNode)
    (threshold : ℚ) :
    (detectEdgeSnap dragged others threshold = none ↔
      snapCandidates dragged others threshold = []) ∧
    (∀ r, detectEdgeSnap dragged others threshold = some r →
      ∃ pre post, snapCandidates dragged others threshold = pre ++ r :: post ∧
        (∀ x ∈ pre, r.distance < x.distance) ∧
        (∀ x ∈ post, r.distance ≤ x.distance)) := by
  have heq : detectEdgeSnap dragged others threshold =
      (snapCandidates dragged others threshold).foldl better none :=
    detectEdgeSnap_eq_foldl dragged threshold others none
  constructor
  · rw [heq]
    cases hc : snapCandidates dragged others threshold with
    | nil => simp
    | cons y ys =>
      obtain ⟨r, hr, _⟩ := foldl_better_acc ys y
      simp only [List.foldl_cons]
      rw [show better none y = some y from rfl, hr]
      simp
  · intro r hr
    rw [heq] at hr
    cases hc : snapCandidates dragged others threshold with
    | nil =>
      rw [hc] at hr
      simp [List.foldl_nil] at hr
    | cons y ys =>
      rw [hc] at hr
      simp only [List.foldl_cons] at hr
      rw [show better none y = some y from rfl] at hr
      obtain ⟨r', hr', pre, post, hdec, hpre, hpost⟩ := foldl_better_acc ys y
      rw [hr'] at hr
      obtain rfl := Option.some.inj hr
      exact ⟨pre, post, hdec, hpre, hpost⟩

/-- The dragged node of the tie scenario: a 100 by 100 square at the
origin. -/
def cexDragged : CanvasNode :=
  { id := "d", x := 0, y := 0, width := 100, height := 100,
    payload := .text "" }

/-- A target 5 units below the dragged node (bottom-top distance 5). -/
def cexBelow : CanvasNode :=
  { id := "t1", x := 0, y := 105, width := 100, height := 100,
    payload := .text "" }

/-- A target 5 units to the right of the dragged node (right-left distance
5). -/
def cexRight : CanvasNode :=
  { id := "t2", x := 105, y := 0, width := 100, height := 100,
    payload := .text "" }

/-- The snap result the tie scenario produces: the bottom-top candidate on
the first target. -/
def cexResult : SnapResult :=
  { targetNode := cexBelow, draggedSide := .bottom, targetSide := .top,
    snapX := 0, snapY := 5, distance := 5 }

/-- The right-left snap candidate the second target contributes, also at
distance 5. -/
def cexRightResult : SnapResult :=
  { targetNode := cexRight, draggedSide := .right, targetSide := .left,
    snapX := 5, snapY := 0, distance := 5 }

theorem snapCandidates_cex_eval :
    snapCandidates cexDragged [cexBelow, cexRight] 8 =
      [cexResult, cexRightResult] := by
  norm_num [snapCandidates, pairCandidates, edgePairs, qualifies, hasOverlap,
    absQ, getEdgePosition, mkSnapResult, snapPosition, cexDragged, cexBelow,
    cexRight, cexResult, cexRightResult, List.filterMap_cons]
  decide

theorem detectEdgeSnap_cex_eval :
    detectEdgeSnap cexDragged [cexBelow, cexRight] 8 = some cexResult := by
  rw [show detectEdgeSnap cexDragged [cexBelow, cexRight] 8 =
      (snapCandidates cexDragged [cexBelow, cexRight] 8).foldl better none from
    detectEdgeSnap_eq_foldl cexDragged 8 [cexBelow, cexRight] none]
  rw [snapCandidates_cex_eval]
  norm_num [better, cexResult, cexRightResult]

/-- C8, counterexample to the claimed tie-break: with a bottom-top
candidate on the first target and a right-left candidate on the second,
both at distance 5 within threshold 8, the code returns the bottom-top
candidate (earlier target wins), not the right-left one that the claimed
pairing-order tie-break (right-left first) would pick. -/
theorem detectEdgeSnap_tie_cex :
    (detectEdgeSnap cexDragged [cexBelow, cexRight] 8).map
        (fun r => (r.draggedSide, r.targetNode.id, r.distance)) =
      some (Side.bottom, "t1", 5) ∧
    qualifies cexDragged cexRight 8 (Side.right, Side.left, Axis.vertical) ∧
    absQ (getEdgePosition cexDragged Side.right -
      getEdgePosition cexRight Side.left) = 5 := by
  refine ⟨?_, ?_, ?_⟩
  · rw [detectEdgeSnap_cex_eval]
    simp [cexResult, cexBelow]
  · norm_num [qualifies, hasOverlap, absQ, getEdgePosition, cexDragged, cexRight]
  · norm_num [absQ, getEdgePosition, cexDragged, cexRight]

/-- C8, witness: the amended characterization instantiated on the concrete
tie scenario. -/
theorem detectEdgeSnap_spec_witness :
    ∃ pre post,
      snapCandidates cexDragged [cexBelow, cexRight] 8 = pre ++ cexResult :: post ∧
      (∀ x ∈ pre, cexResult.distance < x.distance) ∧
      (∀ x ∈ post, cexResult.distance ≤ x.distance) :=
  (detectEdgeSnap_spec cexDragged [cexBelow, cexRight] 8).2 cexResult
    detectEdgeSnap_cex_eval

end Geometry

end Throwdown
